import Mathlib

/-!
Verification of the analysis/report core of `ynab-weekly-wrap`.

The Go source is embedded shallowly:

* `int64` amounts become `Int` (the amounts involved are far below the
  64-bit range, so wrap-around is irrelevant);
* `float64` percentages become exact rationals `ℚ`; every comparison the
  code performs on them (`>= 75`, `< 100`, `> 0`) is exact at the
  realizable values, so the rational model agrees with the float code;
* `time.Time` becomes `GoTime`, exposing only what the analyzer and the
  formatter use: the `2006-01-02` and `01-02` layouts and an hour-level
  timestamp for `time.Until`;
* Go maps with their zero-value default become total functions built by a
  left fold over the transaction list, mirroring the accumulation loops;
* `sort.Slice` becomes `sortSlice`; Go's `sort.Slice` only guarantees a
  permutation that is sorted for the supplied `less` (it is documented as
  not stable), and every theorem below that involves sorting relies only
  on those two guarantees.
-/

/-- Model of `time.Time` as consumed by this repository: calendar fields
for the two `Format` layouts used, plus an hour-granularity timestamp for
`time.Until`. -/
structure GoTime where
  year : Nat
  month : Nat
  day : Nat
  unixHours : Int
deriving DecidableEq

/-- `internal/ynab` `Category` (fields the analyzer reads; the group,
target-balance and activity bookkeeping fields are omitted as unused). -/
structure Category where
  ID : String
  Name : String
  Budgeted : Int
  Activity : Int
  Balance : Int
deriving DecidableEq

/-- `internal/ynab` `Transaction` (fields the analyzer and formatter read;
cleared/approved/flag/account/transfer/import metadata is omitted as
unused). `Date` is a pointer in Go, hence `Option`. -/
structure Transaction where
  ID : String
  Date : Option GoTime
  Amount : Int
  Memo : String
  PayeeName : String
  CategoryID : Option String
  CategoryName : String
  Deleted : Bool
deriving DecidableEq

/-- `internal/ynab` `WeeklyData` (the unused `Budget` pointer is omitted). -/
structure WeeklyData where
  Categories : List Category
  Transactions : List Transaction
  WeekStart : GoTime
  WeekEnd : GoTime
deriving DecidableEq

/-- `internal/processor` `CategorySpending`. -/
structure CategorySpending where
  Category : Category
  Spent : Int
  Budgeted : Int
  Balance : Int
  Percentage : ℚ
  Transactions : List Transaction
deriving DecidableEq

/-- `internal/processor` `Overview`. -/
structure Overview where
  TotalSpent : Int
  TotalBudgeted : Int
  TotalBalance : Int
  HealthPercentage : ℚ
deriving DecidableEq

/-- `internal/processor` `CategoryWin`. -/
structure CategoryWin where
  Category : String
  Balance : Int
  Percentage : ℚ
deriving DecidableEq

/-- `internal/processor` `TopSpendingCategory`. -/
structure TopSpendingCategory where
  Category : String
  Spent : Int
  Budgeted : Int
  Balance : Int
  Percentage : ℚ
deriving DecidableEq

/-- `internal/processor` `CategoryConcernWithTransactions`. -/
structure CategoryConcernWithTransactions where
  Category : String
  Budgeted : Int
  Spent : Int
  Balance : Int
  Over : Int
  Percentage : ℚ
  Transactions : List Transaction
deriving DecidableEq

/-- `internal/processor` `AheadFocus`. -/
structure AheadFocus where
  Watch : List String
  Adjustments : List String
  WeeksLeft : Int
deriving DecidableEq

/-- `internal/processor` `AnalysisResult`. -/
structure AnalysisResult where
  Overview : Overview
  TopSpending : List TopSpendingCategory
  Wins : List CategoryWin
  Concerns : List CategoryConcernWithTransactions
  AheadFocus : AheadFocus
  DateRange : String
deriving DecidableEq

/-- The ASCII digit for `d < 10`. -/
def digitChar (d : Nat) : Char := Char.ofNat (48 + d)

/-- Decimal digits of `n`, most significant first, pushed in front of
`acc`.  The fuel argument only bounds the recursion; `n + 1` units always
suffice since the loop divides `n` by 10 each step. -/
def natStrGo : Nat → Nat → List Char → List Char
  | 0, _, acc => acc
  | fuel + 1, n, acc =>
    let acc2 := digitChar (n % 10) :: acc
    if n < 10 then acc2 else natStrGo fuel (n / 10) acc2

/-- Decimal rendering of a natural number (Go `%d`). -/
def natStr (n : Nat) : String := String.mk (natStrGo (n + 1) n [])

/-- Decimal rendering of an integer (Go `%d` / `%.0f`). -/
def intStr (i : Int) : String :=
  if i < 0 then "-" ++ natStr i.natAbs else natStr i.natAbs

/-- Go `%02d`: zero-padded to two digits. -/
def pad2 (n : Nat) : String := if n < 10 then "0" ++ natStr n else natStr n

/-- Go `%04d` as used by the `2006` year layout component. -/
def pad4 (n : Nat) : String :=
  if n < 10 then "000" ++ natStr n
  else if n < 100 then "00" ++ natStr n
  else if n < 1000 then "0" ++ natStr n
  else natStr n

/-- `t.Format("2006-01-02")`. -/
def formatDateISO (t : GoTime) : String :=
  pad4 t.year ++ "-" ++ pad2 t.month ++ "-" ++ pad2 t.day

/-- `t.Format("01-02")`. -/
def formatDateMMDD (t : GoTime) : String :=
  pad2 t.month ++ "-" ++ pad2 t.day

/-- A transaction the aggregation loop keeps: the loop body runs unless
`tx.Deleted || tx.CategoryID == nil || tx.Amount >= 0`
(`analyzer.go` line 59). -/
def txQualifies (tx : Transaction) : Bool :=
  !(tx.Deleted || tx.CategoryID.isNone || decide (tx.Amount ≥ 0))

/-- One step of the `spendingMap[tx.CategoryName] += -tx.Amount` loop
(`analyzer.go` lines 58-65); the Go map with its zero default is the
function, updated at key `tx.CategoryName`. -/
def spendingMapStep (m : String → Int) (tx : Transaction) : String → Int :=
  if txQualifies tx then
    fun n => if n = tx.CategoryName then m n + -tx.Amount else m n
  else m

/-- The `spendingMap` after the accumulation loop. -/
def spendingMap (transactions : List Transaction) : String → Int :=
  transactions.foldl spendingMapStep (fun _ => 0)

/-- One step of the
`txByCategory[tx.CategoryName] = append(txByCategory[tx.CategoryName], tx)`
loop (`analyzer.go` line 64). -/
def txByCategoryStep (m : String → List Transaction) (tx : Transaction) :
    String → List Transaction :=
  if txQualifies tx then
    fun n => if n = tx.CategoryName then m n ++ [tx] else m n
  else m

/-- The `txByCategory` map after the accumulation loop. -/
def txByCategory (transactions : List Transaction) : String → List Transaction :=
  transactions.foldl txByCategoryStep (fun _ => [])

/-- The `CategorySpending` record built for one category
(`analyzer.go` lines 74-86). -/
def mkCategorySpending (transactions : List Transaction) (cat : Category) :
    CategorySpending :=
  let spend := spendingMap transactions cat.Name
  { Category := cat
    Spent := spend
    Budgeted := cat.Budgeted
    Balance := cat.Balance
    Percentage := (spend : ℚ) / (cat.Budgeted : ℚ) * 100
    Transactions := txByCategory transactions cat.Name }

/-- `calculateCategorySpending` (`analyzer.go` lines 53-90): the category
loop skips `cat.Budgeted == 0` and appends an entry for every other
category. -/
def calculateCategorySpending (categories : List Category)
    (transactions : List Transaction) : List CategorySpending :=
  categories.foldl
    (fun acc cat =>
      if cat.Budgeted = 0 then acc
      else acc ++ [mkCategorySpending transactions cat])
    []

/-- `calculateOverview` (`analyzer.go` lines 92-114): one pass accumulating
the three sums, then the guarded health percentage. -/
def calculateOverview (spending : List CategorySpending) : Overview :=
  let t := spending.foldl
    (fun (acc : Int × Int × Int) cat =>
      (acc.1 + cat.Spent, acc.2.1 + cat.Budgeted, acc.2.2 + cat.Balance))
    (0, 0, 0)
  { TotalSpent := t.1
    TotalBudgeted := t.2.1
    TotalBalance := t.2.2
    HealthPercentage :=
      if 0 < t.2.1 then (t.1 : ℚ) / (t.2.1 : ℚ) * 100 else 0 }

/-- Model of Go `sort.Slice`: a permutation of the input that is sorted
for `less`.  `sort.Slice` is documented as not stable, so nothing beyond
sortedness and the permutation property is used in the theorems below;
the representative implementation is insertion sort on the complement
relation `less b a = false` ("a may come before b"). -/
def sortSlice {α : Type} (less : α → α → Bool) (l : List α) : List α :=
  List.insertionSort (fun a b => less b a = false) l

/-- The `less` closure of `identifyWins` (`analyzer.go` line 121):
`spending[i].Balance > spending[j].Balance`. -/
def winsLess (i j : CategorySpending) : Bool := decide (j.Balance < i.Balance)

/-- `identifyWins` (`analyzer.go` lines 116-137): sort by balance
descending, walk the first three, keep positive balances. -/
def identifyWins (spending : List CategorySpending) : List CategoryWin :=
  (((sortSlice winsLess spending).take 3).filter
      (fun cat => decide (0 < cat.Balance))).map
    (fun cat =>
      { Category := cat.Category.Name
        Balance := cat.Balance
        Percentage := cat.Percentage })

/-- The `less` closure of `getTopSpendingCategories` (`analyzer.go`
line 174): `withSpending[i].Spent > withSpending[j].Spent`. -/
def topLess (i j : CategorySpending) : Bool := decide (j.Spent < i.Spent)

/-- The record built by `getTopSpendingCategories` (`analyzer.go`
lines 186-192). -/
def mkTopSpending (cat : CategorySpending) : TopSpendingCategory :=
  { Category := cat.Category.Name
    Spent := cat.Spent
    Budgeted := cat.Budgeted
    Balance := cat.Balance
    Percentage := cat.Percentage }

/-- `getTopSpendingCategories` (`analyzer.go` lines 161-196): filter to
positive spend, sort descending, take `actualLimit` entries, where a zero
`limit` means everything and the loop bound `i < actualLimit` never admits
an index when `actualLimit` is negative (hence `Int.toNat`). -/
def getTopSpendingCategories (spending : List CategorySpending)
    (limit : Int) : List TopSpendingCategory :=
  let withSpending := spending.filter (fun cat => decide (0 < cat.Spent))
  let sorted := sortSlice topLess withSpending
  let actualLimit : Int := if limit = 0 then (withSpending.length : Int) else limit
  (sorted.take actualLimit.toNat).map mkTopSpending

/-- The `less` closure of `identifyConcernsWithTransactions`
(`analyzer.go` line 203), which compares the embedded category record's
balance: `spending[i].Category.Balance < spending[j].Category.Balance`. -/
def concernsLess (i j : CategorySpending) : Bool :=
  decide (i.Category.Balance < j.Category.Balance)

/-- The record built by `identifyConcernsWithTransactions` (`analyzer.go`
lines 210-219); note every balance-derived field reads
`cat.Category.Balance`, not `cat.Balance`. -/
def mkConcern (cat : CategorySpending) : CategoryConcernWithTransactions :=
  { Category := cat.Category.Name
    Budgeted := cat.Budgeted
    Spent := cat.Spent
    Balance := cat.Category.Balance
    Over := -cat.Category.Balance
    Percentage := cat.Percentage
    Transactions := cat.Transactions }

/-- `identifyConcernsWithTransactions` (`analyzer.go` lines 198-224):
sort ascending by the category record's balance, keep the negative ones. -/
def identifyConcernsWithTransactions (spending : List CategorySpending) :
    List CategoryConcernWithTransactions :=
  ((sortSlice concernsLess spending).filter
      (fun cat => decide (cat.Category.Balance < 0))).map mkConcern

/-- `calculateAheadFocus` (`analyzer.go` lines 226-244): one loop feeding
two independent conditionals; `WeeksLeft` is
`int(math.Ceil(time.Until(weekEnd).Hours() / 24 / 7))`, the ceiling of the
hour distance over 168. -/
def calculateAheadFocus (spending : List CategorySpending)
    (weekEnd now : GoTime) : AheadFocus :=
  let acc := spending.foldl
    (fun (acc : List String × List String) cat =>
      (if 75 ≤ cat.Percentage ∧ cat.Percentage < 100
         then acc.1 ++ [cat.Category.Name] else acc.1,
       if 100 ≤ cat.Percentage
         then acc.2 ++ ["Consider reducing " ++ cat.Category.Name ++ " budget"]
         else acc.2))
    ([], [])
  { Watch := acc.1
    Adjustments := acc.2
    WeeksLeft := Int.fdiv (weekEnd.unixHours - now.unixHours + 167) 168 }

/-- `AnalyzeWeeklyData` (`analyzer.go` lines 18-51).  The nil pointer is
`Option.none`; the only error return is the nil check.  `now` stands for
the instant `time.Until` reads inside `calculateAheadFocus`. -/
def analyzeWeeklyData (data : Option WeeklyData) (topCategoriesLimit : Int)
    (now : GoTime) : Except String AnalysisResult :=
  match data with
  | none => .error "weekly data is nil"
  | some d =>
    let categorySpending := calculateCategorySpending d.Categories d.Transactions
    .ok
      { Overview := calculateOverview categorySpending
        TopSpending := getTopSpendingCategories categorySpending topCategoriesLimit
        Wins := identifyWins categorySpending
        Concerns := identifyConcernsWithTransactions categorySpending
        AheadFocus := calculateAheadFocus categorySpending d.WeekEnd now
        DateRange := formatDateISO d.WeekStart ++ " to " ++ formatDateISO d.WeekEnd }

/-- Model of `strings.TrimRight(s, string(c))` with a one-character cutset:
drop the maximal run of `c` from the right end. -/
def trimRightChar (s : String) (c : Char) : String :=
  String.mk ((s.data.reverse.dropWhile (fun a => a == c)).reverse)

/-- Rounding of `r` thousandths (`0 ≤ r < 1000`) to centi-units, as
performed by `fmt.Sprintf("%.2f", ...)`: round to nearest, ties to even.
(For a tie `r % 10 = 5` whose value is not exactly representable in
binary, the float rendering may fall on either side; no theorem below
relies on a tie case.) -/
def roundCents (r : Nat) : Nat :=
  if r % 10 < 5 then r / 10
  else if 5 < r % 10 then r / 10 + 1
  else if (r / 10) % 2 = 0 then r / 10 else r / 10 + 1

/-- `formatAmount` of the scheduler (`cron.go`, current version,
lines 144-155), with the `float64(m)/1000` conversion of every call site
folded in, so the argument is the raw milli-unit integer.  The whole-number
test `amount == float64(int64(amount))` holds exactly when `1000` divides
`m`; otherwise the two-decimal rendering is built and the trailing zeros
and a bare trailing point are trimmed, exactly as in the source. -/
def formatAmount (m : Int) : String :=
  if m % 1000 = 0 then intStr (m / 1000)
  else
    let sign := if m < 0 then "-" else ""
    let v := m.natAbs
    let cents := roundCents (v % 1000)
    let ip := if cents = 100 then v / 1000 + 1 else v / 1000
    let c2 := if cents = 100 then 0 else cents
    trimRightChar (trimRightChar (sign ++ natStr ip ++ "." ++ pad2 c2) '0') '.'

/-- One bullet of the per-concern transaction list (`cron.go`, current
version, lines 217-227): blank date for a nil date pointer, sign-flipped
amount, memo preferred over payee name. -/
def formatTxLine (tx : Transaction) : String :=
  let date := match tx.Date with
    | none => ""
    | some d => formatDateMMDD d
  let memo := if tx.Memo = "" then tx.PayeeName else tx.Memo
  "  • " ++ date ++ ": $" ++ formatAmount (-tx.Amount) ++ " - " ++ memo ++ "\n"

/-- The `for count, tx := range concern.Transactions` loop (`cron.go`,
current version, lines 212-228): the body breaks as soon as `count`
reaches 3. -/
def formatTxLoop (count : Nat) : List Transaction → String
  | [] => ""
  | tx :: rest =>
    if count = 3 then ""
    else formatTxLine tx ++ formatTxLoop (count + 1) rest

/-- The message block for one over-budget concern (`cron.go`, current
version, lines 199-229). -/
def formatConcernBlock (c : CategoryConcernWithTransactions) : String :=
  "\n**" ++ c.Category ++ "**: Activity: $" ++ formatAmount c.Spent ++
    "  Remaining: $" ++ formatAmount c.Balance ++ "\n" ++
    (if 0 < c.Transactions.length
      then "Last 3 transactions:\n" ++ formatTxLoop 0 c.Transactions
      else "")

/-- The over-budget section of the rendered message (`cron.go`, current
version, lines 195-233): header, then either one block per concern or the
congratulation line. -/
def formatConcernsSection (concerns : List CategoryConcernWithTransactions) :
    String :=
  "\n⚠️ **Over Budget Categories**\n" ++
    (if 0 < concerns.length
      then String.join (concerns.map formatConcernBlock)
      else "• No categories over budget - great job! 🎉\n")

/-- The transactions of `transactions` that qualify and are keyed to the
category name `n` (specification-side counterpart of `txByCategory`). -/
def qualTxs (transactions : List Transaction) (n : String) : List Transaction :=
  transactions.filter (fun tx => txQualifies tx && decide (tx.CategoryName = n))

/-- The negated amount total of the qualifying transactions keyed to `n`
(specification-side counterpart of `spendingMap`). -/
def qualSum (transactions : List Transaction) (n : String) : Int :=
  ((qualTxs transactions n).map (fun tx => -tx.Amount)).sum

/-- The negated amount total of all qualifying transactions. -/
def qualSumAll (transactions : List Transaction) : Int :=
  ((transactions.filter txQualifies).map (fun tx => -tx.Amount)).sum

/-- Concrete category with a negative budgeted amount (YNAB budget amounts
are signed), used to probe the health-percentage guard. -/
def catNegBudget : Category :=
  { ID := "a", Name := "A", Budgeted := -1000, Activity := 0, Balance := 0 }

/-- Concrete category with a positive budgeted amount. -/
def catPosBudget : Category :=
  { ID := "a", Name := "A", Budgeted := 1000, Activity := 0, Balance := 0 }

/-- Qualifying spend transaction attributed to category name `A`. -/
def txSpendA : Transaction :=
  { ID := "t1", Date := none, Amount := -100, Memo := "", PayeeName := "",
    CategoryID := some "a", CategoryName := "A", Deleted := false }

/-- Qualifying spend transaction attributed to category name `B`, for
which no budgeted category exists in the fixtures. -/
def txSpendB : Transaction :=
  { ID := "t2", Date := none, Amount := -200, Memo := "", PayeeName := "",
    CategoryID := some "b", CategoryName := "B", Deleted := false }

/-- A `CategorySpending` entry whose own `Balance` field disagrees with
the embedded category record's balance: the entry's field is negative
while the category record's balance is positive. -/
def entryMismatchedBalance : CategorySpending :=
  { Category := { ID := "c1", Name := "A", Budgeted := 100, Activity := 0,
                  Balance := 5 }
    Spent := 0
    Budgeted := 100
    Balance := -5
    Percentage := 0
    Transactions := [] }

/-- A `CategorySpending` entry with a positive balance and positive spend. -/
def entryPositive : CategorySpending :=
  { Category := { ID := "c2", Name := "Fitness", Budgeted := 50000,
                  Activity := 0, Balance := 20000 }
    Spent := 30000
    Budgeted := 50000
    Balance := 20000
    Percentage := 60
    Transactions := [] }

/-- Entry at exactly 75% of budget. -/
def entryAt75 : CategorySpending :=
  { Category := { ID := "p75", Name := "A75", Budgeted := 1000, Activity := 0,
                  Balance := 250 }
    Spent := 750
    Budgeted := 1000
    Balance := 250
    Percentage := 75
    Transactions := [] }

/-- Entry at exactly 100% of budget. -/
def entryAt100 : CategorySpending :=
  { Category := { ID := "p100", Name := "A100", Budgeted := 1000, Activity := 0,
                  Balance := 0 }
    Spent := 1000
    Budgeted := 1000
    Balance := 0
    Percentage := 100
    Transactions := [] }

/-- Entry at 99.9% of budget. -/
def entryAt999 : CategorySpending :=
  { Category := { ID := "p999", Name := "A999", Budgeted := 1000, Activity := 0,
                  Balance := 1 }
    Spent := 999
    Budgeted := 1000
    Balance := 1
    Percentage := ⟨999, 10, by norm_num, by norm_num⟩
    Transactions := [] }

/-- A fixed instant, standing in for `time.Now()` in concrete runs. -/
def timeFixed : GoTime := { year := 2025, month := 1, day := 1, unixHours := 0 }

/-- A `CategorySpending` entry genuinely over budget (both balance fields
negative and equal, as the analyzer produces). -/
def entryOverspent : CategorySpending :=
  { Category := { ID := "c3", Name := "Dining", Budgeted := 20000,
                  Activity := 0, Balance := -10000 }
    Spent := 30000
    Budgeted := 20000
    Balance := -10000
    Percentage := 150
    Transactions := [txSpendA] }

theorem qualTxs_cons (tx : Transaction) (ts : List Transaction) (n : String) :
    qualTxs (tx :: ts) n =
      if txQualifies tx && decide (tx.CategoryName = n)
        then tx :: qualTxs ts n else qualTxs ts n := by
  simp only [qualTxs, List.filter]
  cases txQualifies tx && decide (tx.CategoryName = n) <;> simp

theorem qualSum_cons (tx : Transaction) (ts : List Transaction) (n : String) :
    qualSum (tx :: ts) n =
      (if txQualifies tx && decide (tx.CategoryName = n)
        then -tx.Amount else 0) + qualSum ts n := by
  simp only [qualSum, qualTxs_cons]
  by_cases h : (txQualifies tx && decide (tx.CategoryName = n)) = true <;>
    simp [h]

theorem spendingMap_foldl (ts : List Transaction) (f : String → Int)
    (n : String) : (ts.foldl spendingMapStep f) n = f n + qualSum ts n := by
  induction ts generalizing f with
  | nil => simp [qualSum, qualTxs]
  | cons tx rest ih =>
    rw [List.foldl_cons, ih, qualSum_cons]
    unfold spendingMapStep
    by_cases hq : txQualifies tx = true
    · by_cases hn : n = tx.CategoryName
      · simp [hq, hn, eq_comm]
        ring
      · have hn2 : ¬ tx.CategoryName = n := fun h => hn h.symm
        simp [hq, hn, hn2]
    · simp [hq, Bool.eq_false_iff.mpr hq]

/-- The spending map after the first loop is exactly the per-name
qualifying sum. -/
theorem spendingMap_eq (ts : List Transaction) (n : String) :
    spendingMap ts n = qualSum ts n := by
  have h := spendingMap_foldl ts (fun _ => 0) n
  simpa [spendingMap] using h

theorem txByCategory_foldl (ts : List Transaction)
    (f : String → List Transaction) (n : String) :
    (ts.foldl txByCategoryStep f) n = f n ++ qualTxs ts n := by
  induction ts generalizing f with
  | nil => simp [qualTxs]
  | cons tx rest ih =>
    rw [List.foldl_cons, ih, qualTxs_cons]
    unfold txByCategoryStep
    by_cases hq : txQualifies tx = true
    · by_cases hn : n = tx.CategoryName
      · simp [hq, hn, eq_comm]
      · have hn2 : ¬ tx.CategoryName = n := fun h => hn h.symm
        simp [hq, hn, hn2]
    · simp [hq, Bool.eq_false_iff.mpr hq]

/-- The per-category transaction lists after the first loop are exactly
the qualifying transactions keyed to each name, in input order. -/
theorem txByCategory_eq (ts : List Transaction) (n : String) :
    txByCategory ts n = qualTxs ts n := by
  have h := txByCategory_foldl ts (fun _ => []) n
  simpa [txByCategory] using h

theorem calculateCategorySpending_foldl (cats : List Category)
    (ts : List Transaction) (acc : List CategorySpending) :
    cats.foldl
        (fun acc cat =>
          if cat.Budgeted = 0 then acc
          else acc ++ [mkCategorySpending ts cat]) acc =
      acc ++ (cats.filter (fun c => !decide (c.Budgeted = 0))).map
        (mkCategorySpending ts) := by
  induction cats generalizing acc with
  | nil => simp
  | cons cat rest ih =>
    rw [List.foldl_cons]
    by_cases h : cat.Budgeted = 0
    · simp [h, ih]
    · simp [h, ih]

/-- `calculateCategorySpending` keeps exactly the categories with nonzero
budget, one entry each, in input order. -/
theorem calculateCategorySpending_eq (cats : List Category)
    (ts : List Transaction) :
    calculateCategorySpending cats ts =
      (cats.filter (fun c => !decide (c.Budgeted = 0))).map
        (mkCategorySpending ts) := by
  have h := calculateCategorySpending_foldl cats ts []
  simpa [calculateCategorySpending] using h

theorem calculateOverview_foldl (l : List CategorySpending)
    (a b c : Int) :
    l.foldl
        (fun (acc : Int × Int × Int) cat =>
          (acc.1 + cat.Spent, acc.2.1 + cat.Budgeted, acc.2.2 + cat.Balance))
        (a, b, c) =
      (a + (l.map CategorySpending.Spent).sum,
       b + (l.map CategorySpending.Budgeted).sum,
       c + (l.map CategorySpending.Balance).sum) := by
  induction l generalizing a b c with
  | nil => simp
  | cons x rest ih =>
    rw [List.foldl_cons, ih]
    simp
    constructor
    · ring
    constructor
    · ring
    · ring

/-- The overview accumulator computes the three sums and the guarded
health percentage. -/
theorem calculateOverview_eq (l : List CategorySpending) :
    calculateOverview l =
      { TotalSpent := (l.map CategorySpending.Spent).sum
        TotalBudgeted := (l.map CategorySpending.Budgeted).sum
        TotalBalance := (l.map CategorySpending.Balance).sum
        HealthPercentage :=
          if 0 < (l.map CategorySpending.Budgeted).sum then
            ((l.map CategorySpending.Spent).sum : ℚ) /
              ((l.map CategorySpending.Budgeted).sum : ℚ) * 100
          else 0 } := by
  unfold calculateOverview
  rw [calculateOverview_foldl]
  simp

/-- `sortSlice` returns a permutation of its input (one half of the
`sort.Slice` contract). -/
theorem sortSlice_perm {α : Type} (less : α → α → Bool) (l : List α) :
    List.Perm (sortSlice less l) l :=
  List.perm_insertionSort _ l

/-- `sortSlice` returns a list sorted for `less` (the other half of the
`sort.Slice` contract): no later element is `less` than an earlier one.
Requires the totality and transitivity of the complement relation, which
hold for every comparison closure in this repository. -/
theorem sortSlice_sorted {α : Type} (less : α → α → Bool)
    (htot : ∀ a b : α, less b a = false ∨ less a b = false)
    (htrans : ∀ a b c : α,
      less b a = false → less c b = false → less c a = false)
    (l : List α) :
    (sortSlice less l).Pairwise (fun a b => less b a = false) := by
  haveI : IsTotal α (fun a b => less b a = false) := ⟨htot⟩
  haveI : IsTrans α (fun a b => less b a = false) :=
    ⟨fun a b c h1 h2 => htrans a b c h1 h2⟩
  exact List.sorted_insertionSort _ l

theorem winsLess_sorted (l : List CategorySpending) :
    (sortSlice winsLess l).Pairwise (fun a b => b.Balance ≤ a.Balance) := by
  have h := sortSlice_sorted winsLess
    (by
      intro a b
      by_cases hab : a.Balance < b.Balance
      · right
        simp [winsLess]
        omega
      · left
        simp [winsLess]
        omega)
    (by
      intro a b c h1 h2
      simp [winsLess] at h1 h2 ⊢
      omega)
    l
  refine h.imp ?_
  intro a b hab
  simp [winsLess] at hab
  omega

theorem topLess_sorted (l : List CategorySpending) :
    (sortSlice topLess l).Pairwise (fun a b => b.Spent ≤ a.Spent) := by
  have h := sortSlice_sorted topLess
    (by
      intro a b
      by_cases hab : a.Spent < b.Spent
      · right
        simp [topLess]
        omega
      · left
        simp [topLess]
        omega)
    (by
      intro a b c h1 h2
      simp [topLess] at h1 h2 ⊢
      omega)
    l
  refine h.imp ?_
  intro a b hab
  simp [topLess] at hab
  omega

theorem concernsLess_sorted (l : List CategorySpending) :
    (sortSlice concernsLess l).Pairwise
      (fun a b => a.Category.Balance ≤ b.Category.Balance) := by
  have h := sortSlice_sorted concernsLess
    (by
      intro a b
      by_cases hab : b.Category.Balance < a.Category.Balance
      · right
        simp [concernsLess]
        omega
      · left
        simp [concernsLess]
        omega)
    (by
      intro a b c h1 h2
      simp [concernsLess] at h1 h2 ⊢
      omega)
    l
  refine h.imp ?_
  intro a b hab
  simp [concernsLess] at hab
  omega

theorem sum_map_add {α : Type} (l : List α) (f g : α → Int) :
    (l.map (fun a => f a + g a)).sum = (l.map f).sum + (l.map g).sum := by
  induction l with
  | nil => simp
  | cons x rest ih =>
    simp [ih]
    ring

theorem sum_indicator_not_mem (names : List String) (a : String) (c : Int)
    (h : a ∉ names) :
    (names.map (fun n => if a = n then c else 0)).sum = 0 := by
  induction names with
  | nil => simp
  | cons x rest ih =>
    simp only [List.mem_cons, not_or] at h
    simp [h.1, ih h.2]

theorem sum_indicator_nodup (names : List String) (a : String) (c : Int)
    (hd : names.Nodup) (hm : a ∈ names) :
    (names.map (fun n => if a = n then c else 0)).sum = c := by
  induction names with
  | nil => simp at hm
  | cons x rest ih =>
    rcases List.mem_cons.mp hm with h | h
    · subst h
      have hnot : a ∉ rest := (List.nodup_cons.mp hd).1
      simp [sum_indicator_not_mem rest a c hnot]
    · have hax : ¬ a = x := by
        rintro rfl
        exact (List.nodup_cons.mp hd).1 h
      simp [hax, ih (List.nodup_cons.mp hd).2 h]

/-- Exchange of summation: when the key names are distinct and cover every
qualifying transaction, summing the per-name qualifying sums counts every
qualifying transaction exactly once. -/
theorem sum_qualSum (names : List String) (ts : List Transaction)
    (hd : names.Nodup)
    (hcov : ∀ tx ∈ ts, txQualifies tx = true → tx.CategoryName ∈ names) :
    (names.map (qualSum ts)).sum = qualSumAll ts := by
  induction ts with
  | nil =>
    simp [qualSumAll]
    have : names.map (fun n => qualSum [] n) = names.map (fun _ => (0 : Int)) := by
      apply List.map_congr_left
      intro n _
      simp [qualSum, qualTxs]
    simp [this]
  | cons tx rest ih =>
    have hcov' : ∀ t ∈ rest, txQualifies t = true → t.CategoryName ∈ names :=
      fun t ht => hcov t (List.mem_cons_of_mem tx ht)
    have hmap : names.map (qualSum (tx :: rest)) =
        names.map (fun n =>
          (if txQualifies tx && decide (tx.CategoryName = n)
            then -tx.Amount else 0) + qualSum rest n) := by
      apply List.map_congr_left
      intro n _
      exact qualSum_cons tx rest n
    rw [hmap, sum_map_add, ih hcov']
    by_cases hq : txQualifies tx = true
    · have hmem := hcov tx (List.mem_cons_self tx rest) hq
      have hind : names.map (fun n =>
          if txQualifies tx && decide (tx.CategoryName = n)
            then -tx.Amount else 0) =
          names.map (fun n => if tx.CategoryName = n then -tx.Amount else 0) := by
        apply List.map_congr_left
        intro n _
        simp [hq]
      rw [hind, sum_indicator_nodup names tx.CategoryName (-tx.Amount) hd hmem]
      simp [qualSumAll, hq]
    · have hind : names.map (fun n =>
          if txQualifies tx && decide (tx.CategoryName = n)
            then -tx.Amount else (0 : Int)) =
          names.map (fun _ => (0 : Int)) := by
        apply List.map_congr_left
        intro n _
        simp [Bool.eq_false_iff.mpr hq]
      rw [hind]
      have hq2 : txQualifies tx = false := Bool.eq_false_iff.mpr hq
      simp [qualSumAll, hq2]

theorem calculateAheadFocus_foldl (l : List CategorySpending)
    (w adj : List String) :
    l.foldl
        (fun (acc : List String × List String) cat =>
          (if 75 ≤ cat.Percentage ∧ cat.Percentage < 100
             then acc.1 ++ [cat.Category.Name] else acc.1,
           if 100 ≤ cat.Percentage
             then acc.2 ++ ["Consider reducing " ++ cat.Category.Name ++ " budget"]
             else acc.2))
        (w, adj) =
      (w ++ (l.filter
          (fun cat => decide (75 ≤ cat.Percentage ∧ cat.Percentage < 100))).map
            (fun cat => cat.Category.Name),
       adj ++ (l.filter (fun cat => decide (100 ≤ cat.Percentage))).map
            (fun cat => "Consider reducing " ++ cat.Category.Name ++ " budget")) := by
  induction l generalizing w adj with
  | nil => simp
  | cons cat rest ih =>
    rw [List.foldl_cons, ih]
    by_cases h1 : 75 ≤ cat.Percentage ∧ cat.Percentage < 100 <;>
      by_cases h2 : 100 ≤ cat.Percentage <;>
        simp [h1, h2]

/-- The watch list and the adjustment list are the two classification
filters over the input, in input order. -/
theorem calculateAheadFocus_eq (l : List CategorySpending)
    (weekEnd now : GoTime) :
    (calculateAheadFocus l weekEnd now).Watch =
        (l.filter
          (fun cat => decide (75 ≤ cat.Percentage ∧ cat.Percentage < 100))).map
          (fun cat => cat.Category.Name) ∧
      (calculateAheadFocus l weekEnd now).Adjustments =
        (l.filter (fun cat => decide (100 ≤ cat.Percentage))).map
          (fun cat => "Consider reducing " ++ cat.Category.Name ++ " budget") := by
  unfold calculateAheadFocus
  rw [calculateAheadFocus_foldl]
  exact ⟨rfl, rfl⟩

theorem string_join_foldl (l : List String) (a : String) :
    List.foldl (fun r s => r ++ s) a l = a ++ String.join l := by
  induction l generalizing a with
  | nil => simp [String.join]
  | cons x rest ih =>
    rw [List.foldl_cons, ih]
    conv_rhs => rw [String.join, List.foldl_cons, ih]
    simp [String.append_assoc]

theorem string_join_cons (s : String) (l : List String) :
    String.join (s :: l) = s ++ String.join l := by
  rw [String.join, List.foldl_cons, string_join_foldl]
  simp

/-- The transaction bullet loop of the formatter renders exactly the first
`3 - count` remaining transactions. -/
theorem formatTxLoop_take (count : Nat) (hc : count ≤ 3)
    (txs : List Transaction) :
    formatTxLoop count txs =
      String.join ((txs.take (3 - count)).map formatTxLine) := by
  induction txs generalizing count with
  | nil => simp [formatTxLoop, String.join]
  | cons tx rest ih =>
    by_cases h : count = 3
    · subst h
      simp [formatTxLoop, String.join]
    · have hlt : count < 3 := lt_of_le_of_ne hc h
      have h31 : 3 - count = (3 - (count + 1)) + 1 := by omega
      rw [formatTxLoop, if_neg h, ih (count + 1) (by omega), h31]
      rw [List.take_succ_cons, List.map_cons, string_join_cons]

/-- In a list sorted descending by `Balance`, an element of the first `k`
positions is strictly exceeded by fewer than `k` elements of the list. -/
theorem countP_take_le (k : Nat) (l : List CategorySpending)
    (hl : l.Pairwise (fun a b => b.Balance ≤ a.Balance))
    (w : CategorySpending) (hw : w ∈ l.take k) :
    l.countP (fun e => decide (w.Balance < e.Balance)) ≤ k - 1 := by
  induction l generalizing k with
  | nil => simp at hw
  | cons x rest ih =>
    cases k with
    | zero => simp at hw
    | succ k' =>
      rw [List.take_succ_cons] at hw
      have hx := (List.pairwise_cons.mp hl).1
      have hrest := (List.pairwise_cons.mp hl).2
      rcases List.mem_cons.mp hw with h | h
      · subst h
        rw [List.countP_cons]
        have hz : rest.countP (fun e => decide (w.Balance < e.Balance)) = 0 := by
          rw [List.countP_eq_zero]
          intro e he
          have := hx e he
          simp
          omega
        simp [hz]
      · have hk1 : 1 ≤ k' := by
          rcases Nat.eq_zero_or_pos k' with h0 | h0
          · subst h0
            simp at h
          · exact h0
        have := ih k' hrest h
        rw [List.countP_cons]
        by_cases hxw : w.Balance < x.Balance <;> simp [hxw] <;> omega

theorem string_eq_of_data {s t : String} (h : s.data = t.data) : s = t := by
  cases s
  cases t
  exact congrArg String.mk h

theorem string_data_append (s t : String) : (s ++ t).data = s.data ++ t.data := by
  cases s
  cases t
  rfl

theorem string_mk_data (s : String) : String.mk s.data = s := by
  cases s
  rfl

theorem natStrGo_acc (fuel : Nat) : ∀ (n : Nat) (acc : List Char),
    natStrGo fuel n acc = natStrGo fuel n [] ++ acc := by
  induction fuel with
  | zero =>
    intro n acc
    simp [natStrGo]
  | succ fuel ih =>
    intro n acc
    by_cases h : n < 10
    · simp [natStrGo, h]
    · simp only [natStrGo, h, if_false]
      rw [ih (n / 10) (digitChar (n % 10) :: acc),
        ih (n / 10) [digitChar (n % 10)]]
      simp

theorem natStr_data_getLast (n : Nat) :
    (natStr n).data.getLast? = some (digitChar (n % 10)) := by
  show (natStrGo (n + 1) n []).getLast? = _
  by_cases h : n < 10
  · simp [natStrGo, h]
  · simp only [natStrGo, h, if_false]
    rw [natStrGo_acc]
    rw [List.getLast?_append_of_ne_nil _ (by simp)]
    simp

theorem natStr_data_ne_nil (n : Nat) : (natStr n).data ≠ [] := by
  intro h
  have := natStr_data_getLast n
  rw [h] at this
  simp at this

theorem digitChar_ne_dot : ∀ d : Nat, d < 10 → ¬ digitChar d = '.' := by decide

theorem digitChar_ne_zero : ∀ d : Nat, d < 10 → ¬ d = 0 → ¬ digitChar d = '0' := by
  decide

theorem digitChar_zero : digitChar 0 = '0' := by decide

theorem natStr_lt10 : ∀ q : Nat, q < 10 → natStr q = String.mk [digitChar q] := by
  decide

theorem pad2_lt100 : ∀ c : Nat, c < 100 →
    pad2 c = String.mk [digitChar (c / 10), digitChar (c % 10)] := by
  decide

theorem roundCents_le (r : Nat) (h : r < 1000) : roundCents r ≤ 100 := by
  unfold roundCents
  have h10 : r / 10 ≤ 99 := by omega
  split
  · omega
  split
  · omega
  split <;> omega

/-- `strings.TrimRight` is the identity when the last character is not in
the cutset. -/
theorem trimRightChar_noop (s : String) (c d : Char)
    (hlast : s.data.getLast? = some d) (hd : ¬ d = c) :
    trimRightChar s c = s := by
  apply string_eq_of_data
  show (s.data.reverse.dropWhile (fun a => a == c)).reverse = s.data
  rcases hrev : s.data.reverse with _ | ⟨x, t⟩
  · simp
    exact List.reverse_eq_nil_iff.mp hrev
  · have hx : x = d := by
      have h1 : s.data.reverse.head? = s.data.getLast? := by
        rw [List.head?_reverse]
      rw [hrev, hlast] at h1
      simpa using h1
    subst hx
    rw [List.dropWhile_cons]
    have : (x == c) = false := by
      simpa using hd
    rw [this]
    simp only [Bool.false_eq_true, if_false]
    rw [← hrev]
    simp

/-- `strings.TrimRight` drops one trailing cutset character and keeps
trimming. -/
theorem trimRightChar_last (l : List Char) (c : Char) :
    trimRightChar (String.mk (l ++ [c])) c = trimRightChar (String.mk l) c := by
  unfold trimRightChar
  simp [List.dropWhile_cons]

theorem getLast_append_singleton {l : List Char} {a : Char} :
    (l ++ [a]).getLast? = some a := by
  rw [List.getLast?_append_of_ne_nil _ (by simp)]
  simp

/-- In the non-whole branch, trimming the two trailing artifacts yields one
of three shapes: no fractional part at all (both rounded digits were
zero), one fractional digit (the second rounded digit was zero), or the
full two fractional digits. -/
theorem formatAmount_nonwhole (m : Int) (h : ¬ m % 1000 = 0) :
    formatAmount m =
      (let sign := if m < 0 then "-" else ""
       let cents := roundCents (m.natAbs % 1000)
       let ip := if cents = 100 then m.natAbs / 1000 + 1 else m.natAbs / 1000
       let c2 := if cents = 100 then 0 else cents
       if c2 = 0 then sign ++ natStr ip
       else if c2 % 10 = 0 then sign ++ natStr ip ++ "." ++ natStr (c2 / 10)
       else sign ++ natStr ip ++ "." ++ pad2 c2) := by
  simp only [formatAmount, if_neg h]
  set sign := (if m < 0 then "-" else "") with hsign
  set cents := roundCents (m.natAbs % 1000) with hcents
  set ip := (if cents = 100 then m.natAbs / 1000 + 1 else m.natAbs / 1000) with hip
  set c2 := (if cents = 100 then (0 : Nat) else cents) with hc2
  have hcle : cents ≤ 100 := by
    rw [hcents]
    exact roundCents_le _ (Nat.mod_lt _ (by norm_num))
  have hc2lt : c2 < 100 := by
    rw [hc2]
    split
    · norm_num
    · rename_i hne
      omega
  set A := sign ++ natStr ip with hA
  have hAlast : A.data.getLast? = some (digitChar (ip % 10)) := by
    rw [hA, string_data_append,
      List.getLast?_append_of_ne_nil _ (natStr_data_ne_nil ip)]
    exact natStr_data_getLast ip
  have hipd : ip % 10 < 10 := Nat.mod_lt _ (by norm_num)
  have hAdotlast : (A ++ ".").data.getLast? = some '.' := by
    rw [string_data_append]
    exact getLast_append_singleton
  by_cases h0 : c2 = 0
  · -- both rounded digits are zero: "x.00" becomes "x"
    simp only [h0, if_pos rfl]
    have hs0 : (A ++ "." ++ pad2 0) =
        String.mk (((A ++ ".").data ++ ['0']) ++ ['0']) := by
      apply string_eq_of_data
      simp [string_data_append]
      decide
    rw [hs0, trimRightChar_last, trimRightChar_last, string_mk_data]
    rw [trimRightChar_noop (A ++ ".") '0' '.' hAdotlast (by decide)]
    have hAdot : (A ++ ".") = String.mk (A.data ++ ['.']) := by
      apply string_eq_of_data
      simp [string_data_append]
    rw [hAdot, trimRightChar_last, string_mk_data]
    exact trimRightChar_noop A '.' (digitChar (ip % 10)) hAlast
      (digitChar_ne_dot _ hipd)
  · by_cases h10 : c2 % 10 = 0
    · -- second rounded digit is zero: "x.d0" becomes "x.d"
      simp only [if_neg h0, if_pos h10]
      have hd1 : c2 / 10 < 10 := by omega
      have hd1ne : ¬ c2 / 10 = 0 := by omega
      have hpad : pad2 c2 = String.mk [digitChar (c2 / 10), '0'] := by
        rw [pad2_lt100 c2 hc2lt, h10, digitChar_zero]
      have hs0 : (A ++ "." ++ pad2 c2) =
          String.mk (((A ++ ".").data ++ [digitChar (c2 / 10)]) ++ ['0']) := by
        apply string_eq_of_data
        simp [string_data_append, hpad]
      rw [hs0, trimRightChar_last]
      have hmkdata : (String.mk ((A ++ ".").data ++ [digitChar (c2 / 10)])).data
          = (A ++ ".").data ++ [digitChar (c2 / 10)] := rfl
      rw [trimRightChar_noop _ '0' (digitChar (c2 / 10))
        (by rw [hmkdata]; exact getLast_append_singleton)
        (digitChar_ne_zero _ hd1 hd1ne)]
      rw [trimRightChar_noop _ '.' (digitChar (c2 / 10))
        (by rw [hmkdata]; exact getLast_append_singleton)
        (digitChar_ne_dot _ hd1)]
      apply string_eq_of_data
      rw [hmkdata, natStr_lt10 _ hd1]
      simp [string_data_append]
    · -- both fractional digits survive: the string is left untouched
      simp only [if_neg h0, if_neg h10]
      have hd0 : c2 % 10 < 10 := Nat.mod_lt _ (by norm_num)
      have hpad : pad2 c2 = String.mk [digitChar (c2 / 10), digitChar (c2 % 10)] :=
        pad2_lt100 c2 hc2lt
      have hs0last : (A ++ "." ++ pad2 c2).data.getLast? =
          some (digitChar (c2 % 10)) := by
        rw [string_data_append, hpad]
        rw [List.getLast?_append_of_ne_nil _ (by simp)]
        rfl
      rw [trimRightChar_noop _ '0' (digitChar (c2 % 10)) hs0last
        (digitChar_ne_zero _ hd0 h10)]
      rw [trimRightChar_noop _ '.' (digitChar (c2 % 10)) hs0last
        (digitChar_ne_dot _ hd0)]

theorem qualTxs_filter (ts : List Transaction) (n : String) :
    qualTxs (ts.filter txQualifies) n = qualTxs ts n := by
  unfold qualTxs
  rw [List.filter_filter]
  apply List.filter_congr
  intro tx _
  cases h : txQualifies tx <;> simp [h]

theorem qualSum_filter (ts : List Transaction) (n : String) :
    qualSum (ts.filter txQualifies) n = qualSum ts n := by
  unfold qualSum
  rw [qualTxs_filter]

/-- Claim C9: `AnalyzeWeeklyData` returns the nil-data error and no result
for the absent dataset, and returns a result without error for every
well-formed dataset (in particular empty lists, zero budgets and missing
dates need no special case: the only error return is the nil check). -/
theorem analyzeWeeklyData_error_spec :
    (∀ (limit : Int) (now : GoTime),
      analyzeWeeklyData none limit now = Except.error "weekly data is nil")
    ∧ (∀ (d : WeeklyData) (limit : Int) (now : GoTime),
        ∃ r : AnalysisResult, analyzeWeeklyData (some d) limit now = Except.ok r) := by
  constructor
  · intro limit now
    rfl
  · intro d limit now
    exact ⟨_, rfl⟩

/-- Claim C10: a strictly negative limit is used directly as the loop
bound of the top-spending selector, so nothing is ever taken and the
result is empty. -/
theorem negativeLimit_empty (spending : List CategorySpending) (limit : Int)
    (h : limit < 0) : getTopSpendingCategories spending limit = [] := by
  unfold getTopSpendingCategories
  have hne : ¬ limit = 0 := by omega
  have hz : limit.toNat = 0 := Int.toNat_of_nonpos (le_of_lt h)
  simp [hne, hz]

/-- Witness for C10 at a concrete nonempty input and limit `-1`. -/
theorem negativeLimit_empty_witness :
    (-1 : Int) < 0 ∧ getTopSpendingCategories [entryPositive] (-1) = [] :=
  ⟨by decide, negativeLimit_empty [entryPositive] (-1) (by decide)⟩

/-- Claim C3: the aggregator yields exactly one entry per category with
nonzero budget (none for zero budgets), in category order, whose spend
sum, percentage and transaction list are drawn from exactly the
qualifying transactions (not deleted, category link present, strictly
negative amount) whose category name equals the category's name; and
dropping every non-qualifying transaction from the input changes
nothing. -/
theorem categorySpending_characterization (categories : List Category)
    (transactions : List Transaction) :
    calculateCategorySpending categories transactions =
      (categories.filter (fun c => !decide (c.Budgeted = 0))).map (fun cat =>
        { Category := cat
          Spent := qualSum transactions cat.Name
          Budgeted := cat.Budgeted
          Balance := cat.Balance
          Percentage := (qualSum transactions cat.Name : ℚ) / (cat.Budgeted : ℚ) * 100
          Transactions := qualTxs transactions cat.Name })
    ∧ calculateCategorySpending categories (transactions.filter txQualifies)
        = calculateCategorySpending categories transactions := by
  constructor
  · rw [calculateCategorySpending_eq]
    apply List.map_congr_left
    intro cat _
    unfold mkCategorySpending
    rw [spendingMap_eq, txByCategory_eq]
  · rw [calculateCategorySpending_eq, calculateCategorySpending_eq]
    apply List.map_congr_left
    intro cat _
    unfold mkCategorySpending
    rw [spendingMap_eq, spendingMap_eq, txByCategory_eq, txByCategory_eq,
      qualSum_filter, qualTxs_filter]

/-- Claim C7: the forward-focus calculator places a category on the watch
list exactly when its percentage is in `[75, 100)` and emits a budget
adjustment suggestion exactly when its percentage is at least 100; at
exactly 75% the category is watched, at exactly 100% it is in the
adjustments and not watched, and at 99.9% it is watched only. -/
theorem aheadFocus_spec :
    (∀ (spending : List CategorySpending) (weekEnd now : GoTime),
      (calculateAheadFocus spending weekEnd now).Watch =
          (spending.filter
            (fun cat => decide (75 ≤ cat.Percentage ∧ cat.Percentage < 100))).map
            (fun cat => cat.Category.Name)
        ∧ (calculateAheadFocus spending weekEnd now).Adjustments =
          (spending.filter (fun cat => decide (100 ≤ cat.Percentage))).map
            (fun cat => "Consider reducing " ++ cat.Category.Name ++ " budget"))
    ∧ (calculateAheadFocus [entryAt75, entryAt100, entryAt999]
        timeFixed timeFixed).Watch = ["A75", "A999"]
    ∧ (calculateAheadFocus [entryAt75, entryAt100, entryAt999]
        timeFixed timeFixed).Adjustments = ["Consider reducing A100 budget"] := by
  refine ⟨?_, by decide, by decide⟩
  intro spending weekEnd now
  exact calculateAheadFocus_eq spending weekEnd now

/-- Claim C1 counterexample: with one category of (negative) nonzero
budget named `A` and two qualifying transactions, one attributed to `A`
and one to the unbudgeted name `B`, the overview's `TotalSpent` (100) is
not the negated sum of all qualifying transaction amounts (300), and with
`TotalBudgeted = -1000 ≠ 0` the health percentage is 0, not
`TotalSpent/TotalBudgeted×100`. -/
theorem overviewTotalsClaim_counterexample :
    (calculateOverview (calculateCategorySpending [catNegBudget]
        [txSpendA, txSpendB])).TotalSpent = 100
    ∧ qualSumAll [txSpendA, txSpendB] = 300
    ∧ ¬ ((calculateOverview (calculateCategorySpending [catNegBudget]
        [txSpendA, txSpendB])).TotalSpent = qualSumAll [txSpendA, txSpendB])
    ∧ (calculateOverview (calculateCategorySpending [catNegBudget]
        [txSpendA, txSpendB])).TotalBudgeted = -1000
    ∧ (calculateOverview (calculateCategorySpending [catNegBudget]
        [txSpendA, txSpendB])).HealthPercentage = 0
    ∧ ¬ ((calculateOverview (calculateCategorySpending [catNegBudget]
        [txSpendA, txSpendB])).HealthPercentage =
        ((calculateOverview (calculateCategorySpending [catNegBudget]
          [txSpendA, txSpendB])).TotalSpent : ℚ) /
          ((calculateOverview (calculateCategorySpending [catNegBudget]
            [txSpendA, txSpendB])).TotalBudgeted : ℚ) * 100) := by
  have hS : (calculateOverview (calculateCategorySpending [catNegBudget]
      [txSpendA, txSpendB])).TotalSpent = 100 := by decide
  have hB : (calculateOverview (calculateCategorySpending [catNegBudget]
      [txSpendA, txSpendB])).TotalBudgeted = -1000 := by decide
  have hH : (calculateOverview (calculateCategorySpending [catNegBudget]
      [txSpendA, txSpendB])).HealthPercentage = 0 := by decide
  have hq : qualSumAll [txSpendA, txSpendB] = 300 := by decide
  refine ⟨hS, hq, ?_, hB, hH, ?_⟩
  · rw [hS, hq]
    decide
  · rw [hS, hB, hH]
    norm_num

/-- Claim C1 (amended): the overview's three totals are the sums of the
entries' fields; the health percentage is `TotalSpent/TotalBudgeted×100`
when `TotalBudgeted > 0` and `0` when `TotalBudgeted ≤ 0` (the code's
guard is `> 0`, not `≠ 0`); and `TotalSpent` equals the negated sum of all
qualifying transaction amounts provided the names of the nonzero-budget
categories are distinct and cover every qualifying transaction's category
name. -/
theorem overviewTotals_amended :
    (∀ spending : List CategorySpending,
      (calculateOverview spending).TotalSpent =
          (spending.map CategorySpending.Spent).sum
      ∧ (calculateOverview spending).TotalBudgeted =
          (spending.map CategorySpending.Budgeted).sum
      ∧ (calculateOverview spending).TotalBalance =
          (spending.map CategorySpending.Balance).sum
      ∧ (0 < (calculateOverview spending).TotalBudgeted →
          (calculateOverview spending).HealthPercentage =
            ((calculateOverview spending).TotalSpent : ℚ) /
              ((calculateOverview spending).TotalBudgeted : ℚ) * 100)
      ∧ ((calculateOverview spending).TotalBudgeted ≤ 0 →
          (calculateOverview spending).HealthPercentage = 0))
    ∧ (∀ (categories : List Category) (transactions : List Transaction),
        ((categories.filter (fun c => !decide (c.Budgeted = 0))).map
          Category.Name).Nodup →
        (∀ tx ∈ transactions, txQualifies tx = true →
          tx.CategoryName ∈
            (categories.filter (fun c => !decide (c.Budgeted = 0))).map
              Category.Name) →
        (calculateOverview (calculateCategorySpending categories
          transactions)).TotalSpent = qualSumAll transactions) := by
  constructor
  · intro spending
    rw [calculateOverview_eq]
    refine ⟨rfl, rfl, rfl, ?_, ?_⟩
    · intro h
      dsimp only at h ⊢
      rw [if_pos h]
    · intro h
      dsimp only at h ⊢
      rw [if_neg (by omega : ¬ 0 < (spending.map CategorySpending.Budgeted).sum)]
  · intro categories transactions hnodup hcov
    rw [calculateOverview_eq]
    dsimp only
    rw [calculateCategorySpending_eq, List.map_map]
    have hcomp : (CategorySpending.Spent ∘ mkCategorySpending transactions) =
        fun c : Category => qualSum transactions c.Name := by
      funext c
      exact spendingMap_eq transactions c.Name
    rw [hcomp]
    have hmm : (categories.filter (fun c => !decide (c.Budgeted = 0))).map
        (fun c => qualSum transactions c.Name) =
        ((categories.filter (fun c => !decide (c.Budgeted = 0))).map
          Category.Name).map (qualSum transactions) := by
      rw [List.map_map]
      rfl
    rw [hmm]
    exact sum_qualSum _ transactions hnodup hcov

/-- Witness for the amended C1 at one budgeted category and one matching
qualifying transaction. -/
theorem overviewTotals_amended_witness :
    ((([catPosBudget].filter (fun c => !decide (c.Budgeted = 0))).map
        Category.Name).Nodup
      ∧ (∀ tx ∈ [txSpendA], txQualifies tx = true →
          tx.CategoryName ∈
            ([catPosBudget].filter (fun c => !decide (c.Budgeted = 0))).map
              Category.Name))
    ∧ (calculateOverview (calculateCategorySpending [catPosBudget]
        [txSpendA])).TotalSpent = qualSumAll [txSpendA] :=
  ⟨⟨by decide, by decide⟩,
    overviewTotals_amended.2 [catPosBudget] [txSpendA] (by decide) (by decide)⟩

/-- Claim C5 counterexample: an entry whose `Balance` field is negative
while its embedded category record's balance is positive is not selected
by the concerns selector, because the code filters on
`cat.Category.Balance`, not on the entry's `Balance` field. -/
theorem concernsSelection_counterexample :
    entryMismatchedBalance.Balance < 0
    ∧ identifyConcernsWithTransactions [entryMismatchedBalance] = [] := by
  exact ⟨by decide, by decide⟩

/-- Claim C5 (amended): the concerns selector returns, up to the order of
equal balances, exactly the entries whose embedded category record has a
strictly negative balance (equal to the entry's `Balance` field for every
analyzer-produced entry), sorted ascending by that balance, each carrying
the category name, budgeted, spent, balance, overage `= -balance`,
percentage and the full untruncated transaction list. -/
theorem concernsSelection_amended (spending : List CategorySpending) :
    List.Perm (identifyConcernsWithTransactions spending)
        ((spending.filter (fun cat => decide (cat.Category.Balance < 0))).map
          mkConcern)
    ∧ (identifyConcernsWithTransactions spending).Pairwise
        (fun a b => a.Balance ≤ b.Balance)
    ∧ (∀ c ∈ identifyConcernsWithTransactions spending,
        c.Over = -c.Balance ∧ c.Balance < 0) := by
  refine ⟨?_, ?_, ?_⟩
  · unfold identifyConcernsWithTransactions
    exact ((sortSlice_perm concernsLess spending).filter _).map _
  · unfold identifyConcernsWithTransactions
    rw [List.pairwise_map]
    exact (concernsLess_sorted spending).filter _
  · intro c hc
    unfold identifyConcernsWithTransactions at hc
    rcases List.mem_map.mp hc with ⟨cat, hcat, rfl⟩
    have h := (List.mem_filter.mp hcat).2
    refine ⟨rfl, ?_⟩
    simpa [mkConcern] using h

/-- Witness for the amended C5 at a concrete over-budget entry. -/
theorem concernsSelection_amended_witness :
    mkConcern entryOverspent ∈ identifyConcernsWithTransactions [entryOverspent]
    ∧ (mkConcern entryOverspent).Over = -(mkConcern entryOverspent).Balance
    ∧ (mkConcern entryOverspent).Balance < 0 := by
  have h := (concernsSelection_amended [entryOverspent]).2.2
    (mkConcern entryOverspent) (by decide)
  exact ⟨by decide, h.1, h.2⟩

/-- Claim C6: the wins selector returns at most three entries, each with a
strictly positive balance, each drawn from an input entry (carrying its
name, balance and percentage), and never an entry strictly exceeded in
balance by three or more input entries (so nothing outside the three
highest balances appears). -/
theorem wins_spec (spending : List CategorySpending) :
    (identifyWins spending).length ≤ 3
    ∧ (∀ w ∈ identifyWins spending, 0 < w.Balance)
    ∧ (∀ w ∈ identifyWins spending, ∃ e ∈ spending,
        w.Category = e.Category.Name ∧ w.Balance = e.Balance
          ∧ w.Percentage = e.Percentage)
    ∧ (∀ w ∈ identifyWins spending,
        (spending.filter (fun e => decide (w.Balance < e.Balance))).length ≤ 2) := by
  refine ⟨?_, ?_, ?_, ?_⟩
  · unfold identifyWins
    rw [List.length_map]
    calc (((sortSlice winsLess spending).take 3).filter
          (fun cat => decide (0 < cat.Balance))).length
        ≤ ((sortSlice winsLess spending).take 3).length :=
          List.length_filter_le _ _
      _ ≤ 3 := by
          rw [List.length_take]
          exact min_le_left _ _
  · intro w hw
    unfold identifyWins at hw
    rcases List.mem_map.mp hw with ⟨cat, hcat, rfl⟩
    have h := (List.mem_filter.mp hcat).2
    simpa using h
  · intro w hw
    unfold identifyWins at hw
    rcases List.mem_map.mp hw with ⟨cat, hcat, rfl⟩
    have h1 : cat ∈ (sortSlice winsLess spending).take 3 :=
      (List.mem_filter.mp hcat).1
    have h2 : cat ∈ sortSlice winsLess spending := List.take_subset _ _ h1
    have h3 : cat ∈ spending :=
      (sortSlice_perm winsLess spending).mem_iff.mp h2
    exact ⟨cat, h3, rfl, rfl, rfl⟩
  · intro w hw
    unfold identifyWins at hw
    rcases List.mem_map.mp hw with ⟨cat, hcat, rfl⟩
    have h1 : cat ∈ (sortSlice winsLess spending).take 3 :=
      (List.mem_filter.mp hcat).1
    have hcount := countP_take_le 3 (sortSlice winsLess spending)
      (winsLess_sorted spending) cat h1
    have hperm := ((sortSlice_perm winsLess spending).countP_eq
      (fun e => decide (cat.Balance < e.Balance)))
    rw [← List.countP_eq_length_filter]
    dsimp only
    omega

/-- Witness for C6 at a concrete entry with positive balance. -/
theorem wins_spec_witness :
    ({ Category := "Fitness", Balance := 20000, Percentage := 60 } : CategoryWin)
        ∈ identifyWins [entryPositive]
    ∧ 0 < ({ Category := "Fitness", Balance := 20000, Percentage := 60 } : CategoryWin).Balance := by
  have hmem : ({ Category := "Fitness", Balance := 20000, Percentage := 60 } : CategoryWin) ∈ identifyWins [entryPositive] := by
    decide
  exact ⟨hmem, (wins_spec [entryPositive]).2.1 _ hmem⟩

theorem formatConcernBlock_truncate (c : CategoryConcernWithTransactions) :
    formatConcernBlock { c with Transactions := c.Transactions.take 3 } =
      formatConcernBlock c := by
  unfold formatConcernBlock
  dsimp only
  rw [formatTxLoop_take 0 (by omega), formatTxLoop_take 0 (by omega)]
  rw [List.take_take]
  norm_num

/-- Claim C8: the rendered over-budget section depends only on the first
three transactions of each concern (the fourth and later ones are
omitted), and the bullet loop renders exactly the first three remaining
transactions through `formatTxLine` (date or blank, sign-flipped amount,
memo with payee fallback); concretely, a dated transaction with an empty
memo renders with its payee name. -/
theorem concernsSection_truncation :
    (∀ concerns : List CategoryConcernWithTransactions,
      formatConcernsSection concerns =
        formatConcernsSection (concerns.map (fun c =>
          { c with Transactions := c.Transactions.take 3 })))
    ∧ (∀ txs : List Transaction,
        formatTxLoop 0 txs = String.join ((txs.take 3).map formatTxLine))
    ∧ formatTxLine
        { ID := "t9"
          Date := some { year := 2025, month := 3, day := 14, unixHours := 0 }
          Amount := -2500
          Memo := ""
          PayeeName := "Cafe"
          CategoryID := some "c"
          CategoryName := "Dining"
          Deleted := false } = "  • 03-14: $2.5 - Cafe\n" := by
  refine ⟨?_, ?_, by decide⟩
  · intro concerns
    unfold formatConcernsSection
    rw [List.length_map]
    by_cases h : 0 < concerns.length
    · rw [if_pos h, if_pos h]
      rw [List.map_map]
      have hb : concerns.map (formatConcernBlock ∘ fun c =>
          { c with Transactions := c.Transactions.take 3 }) =
          concerns.map formatConcernBlock := by
        apply List.map_congr_left
        intro c _
        exact formatConcernBlock_truncate c
      rw [hb]
    · rw [if_neg h, if_neg h]
  · intro txs
    have h := formatTxLoop_take 0 (by omega) txs
    simpa using h

/-- Claim C4: the shared currency formatter renders a milli-unit amount as
a bare integer exactly when dividing by 1000 leaves no remainder (the
float quotient equals its integer truncation), and otherwise renders the
two rounded decimal digits and strips trailing zeros and a bare trailing
decimal point; concretely 7518834 renders as "7518.83", 20000 as "20",
500 as "0.5" and 0 (hence also -0) as "0". -/
theorem formatAmount_spec :
    formatAmount 7518834 = "7518.83"
    ∧ formatAmount 20000 = "20"
    ∧ formatAmount 500 = "0.5"
    ∧ formatAmount 0 = "0"
    ∧ (∀ m : Int, m % 1000 = 0 → formatAmount m = intStr (m / 1000))
    ∧ (∀ m : Int, ¬ m % 1000 = 0 →
        formatAmount m =
          (let sign := if m < 0 then "-" else ""
           let cents := roundCents (m.natAbs % 1000)
           let ip := if cents = 100 then m.natAbs / 1000 + 1 else m.natAbs / 1000
           let c2 := if cents = 100 then 0 else cents
           if c2 = 0 then sign ++ natStr ip
           else if c2 % 10 = 0 then sign ++ natStr ip ++ "." ++ natStr (c2 / 10)
           else sign ++ natStr ip ++ "." ++ pad2 c2)) := by
  refine ⟨by decide, by decide, by decide, by decide, ?_, formatAmount_nonwhole⟩
  intro m hm
  simp [formatAmount, hm]

/-- Witness for C4: the whole-number rule at 2000 and the trimming rule at
2500 (which renders as "2.5"). -/
theorem formatAmount_spec_witness :
    ((2000 : Int) % 1000 = 0 ∧ formatAmount 2000 = intStr (2000 / 1000))
    ∧ (¬ (2500 : Int) % 1000 = 0 ∧ formatAmount 2500 = "2.5") := by
  refine ⟨⟨by decide, formatAmount_spec.2.2.2.2.1 2000 (by decide)⟩,
    ⟨by decide, ?_⟩⟩
  have h := formatAmount_spec.2.2.2.2.2 2500 (by decide)
  rw [h]
  decide
